import Mathlib

/-!
Shallow embedding of the cosmac CHIP-8 decode/execute core.

Sources embedded:
- src/src/components/register.rs  (Register file: delay, i, sound, values[16])
- src/src/components/memory.rs    (Memory: values[4096])
- src/src/instruction.rs          (library Instruction enum and Instruction::parse)
- src/src/main.rs                 (historical snapshot: its own Instruction enum
                                   with an Unknown variant and its own parse)
- src/src/chip.rs                 (Chip state and Chip::execute)

Modelling conventions:
- Machine integers are Nat. Where Rust masks or truncates (x & 255, & 0xFFF,
  u8 shift-left truncation, u16 wraparound addition in release builds) the
  embedding applies the corresponding explicit % 256 / % 4096 / % 65536.
- Rust panics (unimplemented!, slice index out of bounds) are modelled as
  Option.none; register get/set therefore return Option, and Chip.execute
  returns Option Chip.
- The Rust i16 subtraction followed by & 255 in Sub/Subn is modelled as
  Int subtraction followed by % 256 (Int.emod is non-negative for a
  positive modulus, matching the two-complement bit pattern) and toNat.
- Vec push/pop act on the end of the vector; the stack is modelled as a
  List whose head is the top, so push is cons and pop takes the head.
- The println! trace output and the bitwise! macro (which only prints) have
  no effect on machine state and are not modelled.
- rand::thread_rng().gen::<u8>() draws one byte; the draw is passed to
  execute as an explicit argument rnd, reduced mod 256.
-/

/-- Register file from src/src/components/register.rs: delay timer, index
register i, sound timer, and sixteen 8-bit general purpose values. -/
structure Register where
  delay : Nat
  i : Nat
  sound : Nat
  values : Fin 16 → Nat

/-- Register::new -/
def Register.new : Register :=
  { delay := 0, i := 0, sound := 0, values := fun _ => 0 }

/-- Register::with_values: copies min(len, 16) entries, the rest stay 0. -/
def Register.with_values (vals : List Nat) : Register :=
  { delay := 0, i := 0, sound := 0, values := fun j => vals.getD j.val 0 }

/-- AddressableStorage::get for Register (self.values[key]); indexing out of
range panics in Rust, modelled as none. -/
def Register.get (r : Register) (key : Nat) : Option Nat :=
  if h : key < 16 then some (r.values ⟨key, h⟩) else none

/-- AddressableStorage::set for Register (self.values[key] = value). -/
def Register.set (r : Register) (key : Nat) (value : Nat) : Option Register :=
  if h : key < 16 then
    some { r with values := Function.update r.values ⟨key, h⟩ value }
  else none

/-- Memory from src/src/components/memory.rs: 4096 bytes. -/
structure Memory where
  values : Fin 4096 → Nat

/-- Memory::new -/
def Memory.new : Memory := { values := fun _ => 0 }

/-- Chip machine state from src/src/chip.rs. -/
structure Chip where
  memory : Memory
  register : Register
  program_counter : Nat
  stack : List Nat

/-- Chip::new -/
def Chip.new : Chip :=
  { memory := Memory.new, register := Register.new, program_counter := 0, stack := [] }

/-- Chip::with_register_values -/
def Chip.with_register_values (vals : List Nat) : Chip :=
  { Chip.new with register := Register.with_values vals }

/-- The library Instruction enum from src/src/instruction.rs. Register
indices are usize in Rust, so they are unconstrained Nat here. -/
inductive Instruction where
  | Sys : Nat → Instruction
  | Cls : Instruction
  | Ret : Instruction
  | Jp : Nat → Instruction
  | Call : Nat → Instruction
  | SeByte : Nat → Nat → Instruction
  | SneByte : Nat → Nat → Instruction
  | Se : Nat → Nat → Instruction
  | LdByte : Nat → Nat → Instruction
  | AddByte : Nat → Nat → Instruction
  | Ld : Nat → Nat → Instruction
  | Or : Nat → Nat → Instruction
  | And : Nat → Nat → Instruction
  | Xor : Nat → Nat → Instruction
  | Add : Nat → Nat → Instruction
  | Sub : Nat → Nat → Instruction
  | Shr : Nat → Instruction
  | Subn : Nat → Nat → Instruction
  | Shl : Nat → Instruction
  | Sne : Nat → Nat → Instruction
  | Ldi : Nat → Instruction
  | JpV0 : Nat → Instruction
  | Rnd : Nat → Nat → Instruction
  | LdVxDelay : Nat → Instruction
  | LdDelayVx : Nat → Instruction
deriving DecidableEq, Repr

/-- The match of Instruction::parse from src/src/instruction.rs, on the
tuple of four nibbles that the Rust code binds as a local before matching.
The catch-all arm is unimplemented! (a panic), modelled as none. -/
def Instruction.parseNibbles : Nat × Nat × Nat × Nat → Option Instruction
  | (6, x, a, b) => some (.LdByte x (((a <<< 4) + b) &&& 255))
  | (8, x, y, 0) => some (.Ld x y)
  | (8, x, y, 1) => some (.Or x y)
  | (8, x, y, 2) => some (.And x y)
  | (8, x, y, 3) => some (.Xor x y)
  | (8, x, y, 4) => some (.Add x y)
  | (8, x, y, 5) => some (.Sub x y)
  | (8, x, _, 6) => some (.Shr x)
  | (8, x, y, 7) => some (.Subn x y)
  | (8, x, _, 14) => some (.Shl x)
  | _ => none

/-- Instruction::parse from src/src/instruction.rs: binds the nibble tuple
and matches it. -/
def Instruction.parse (op : Nat) : Option Instruction :=
  Instruction.parseNibbles ((op >>> 12) &&& 15, (op >>> 8) &&& 15, (op >>> 4) &&& 15, op &&& 15)

namespace Main

/-- The historical Instruction enum from src/src/main.rs, which carries an
explicit Unknown variant. -/
inductive Instruction where
  | LdByte : Nat → Nat → Instruction
  | AddByte : Nat → Nat → Instruction
  | Ld : Nat → Nat → Instruction
  | Or : Nat → Nat → Instruction
  | And : Nat → Nat → Instruction
  | Xor : Nat → Nat → Instruction
  | Add : Nat → Nat → Instruction
  | Sub : Nat → Nat → Instruction
  | Shr : Nat → Instruction
  | Subn : Nat → Nat → Instruction
  | Shl : Nat → Instruction
  | Rnd : Nat → Nat → Instruction
  | Unknown : Instruction
deriving DecidableEq, Repr

/-- The match of Instruction::parse from src/src/main.rs: the same patterns
as the library parse, with a total catch-all arm returning Unknown. -/
def Instruction.parseNibbles : Nat × Nat × Nat × Nat → Instruction
  | (6, x, a, b) => .LdByte x (((a <<< 4) + b) &&& 255)
  | (8, x, y, 0) => .Ld x y
  | (8, x, y, 1) => .Or x y
  | (8, x, y, 2) => .And x y
  | (8, x, y, 3) => .Xor x y
  | (8, x, y, 4) => .Add x y
  | (8, x, y, 5) => .Sub x y
  | (8, x, _, 6) => .Shr x
  | (8, x, y, 7) => .Subn x y
  | (8, x, _, 14) => .Shl x
  | _ => .Unknown

/-- Instruction::parse from src/src/main.rs. -/
def Instruction.parse (op : Nat) : Instruction :=
  Instruction.parseNibbles ((op >>> 12) &&& 15, (op >>> 8) &&& 15, (op >>> 4) &&& 15, op &&& 15)

end Main

/-- Chip::execute from src/src/chip.rs. rnd is the byte drawn by
rand::thread_rng().gen::<u8>() for the Rnd instruction. unimplemented!
panics and out-of-range register indices are none; u16 increments wrap
mod 65536 (release-build Rust wrapping semantics). -/
def Chip.execute (c : Chip) (ins : Instruction) (rnd : Nat) : Option Chip :=
  match ins with
  | .Sys _ => none
  | .Cls => none
  | .Ret =>
    match c.stack with
    | [] => some c
    | addr :: rest => some { c with program_counter := addr % 4096, stack := rest }
  | .Jp addr => some { c with program_counter := addr }
  | .Call addr =>
    some { c with stack := c.program_counter :: c.stack, program_counter := addr % 4096 }
  | .SeByte vx value => do
    let a ← c.register.get vx
    if a = value then some { c with program_counter := (c.program_counter + 2) % 65536 }
    else some c
  | .SneByte vx value => do
    let a ← c.register.get vx
    if a ≠ value then some { c with program_counter := (c.program_counter + 2) % 65536 }
    else some c
  | .Se vx vy => do
    let a ← c.register.get vx
    let b ← c.register.get vy
    if a = b then some { c with program_counter := (c.program_counter + 2) % 65536 }
    else some c
  | .Sne vx vy => do
    let a ← c.register.get vx
    let b ← c.register.get vy
    if a ≠ b then some { c with program_counter := (c.program_counter + 2) % 65536 }
    else some c
  | .LdByte vx value => do
    let r ← c.register.set vx value
    some { c with register := r }
  | .AddByte vx value => do
    let a ← c.register.get vx
    let r ← c.register.set vx ((a + value) % 256)
    some { c with register := r }
  | .Ld vx vy => do
    let b ← c.register.get vy
    let r ← c.register.set vx b
    some { c with register := r }
  | .Or vx vy => do
    let a ← c.register.get vx
    let b ← c.register.get vy
    let r ← c.register.set vx (a ||| b)
    some { c with register := r }
  | .And vx vy => do
    let a ← c.register.get vx
    let b ← c.register.get vy
    let r ← c.register.set vx (a &&& b)
    some { c with register := r }
  | .Xor vx vy => do
    let a ← c.register.get vx
    let b ← c.register.get vy
    let r ← c.register.set vx (a ^^^ b)
    some { c with register := r }
  | .Add vx vy => do
    let a ← c.register.get vx
    let b ← c.register.get vy
    let sum := a + b
    let overflow := if sum > 255 then 1 else 0
    let r1 ← c.register.set 15 overflow
    let r2 ← r1.set vx (sum % 256)
    some { c with register := r2 }
  | .Sub vx vy => do
    let a ← c.register.get vx
    let b ← c.register.get vy
    let noBorrow := if a > b then 1 else 0
    let r1 ← c.register.set 15 noBorrow
    let r2 ← r1.set vx (((a : Int) - (b : Int)) % 256).toNat
    some { c with register := r2 }
  | .Shr vx => do
    let a ← c.register.get vx
    let r1 ← c.register.set 15 (a &&& 1)
    let r2 ← r1.set vx (a >>> 1)
    some { c with register := r2 }
  | .Subn vx vy => do
    let a ← c.register.get vx
    let b ← c.register.get vy
    let noBorrow := if b > a then 1 else 0
    let r1 ← c.register.set 15 noBorrow
    let r2 ← r1.set vx (((b : Int) - (a : Int)) % 256).toNat
    some { c with register := r2 }
  | .Shl vx => do
    let a ← c.register.get vx
    let r1 ← c.register.set 15 ((a &&& 128) >>> 7)
    let r2 ← r1.set vx ((a <<< 1) % 256)
    some { c with register := r2 }
  | .Ldi value => some { c with register := { c.register with i := value } }
  | .JpV0 addr => do
    let a ← c.register.get 0
    some { c with program_counter := (a + addr) % 65536 }
  | .Rnd vx mask => do
    let r ← c.register.set vx ((rnd % 256) &&& mask)
    some { c with register := r }
  | .LdVxDelay vx => do
    let r ← c.register.set vx c.register.delay
    some { c with register := r }
  | .LdDelayVx vx => do
    let a ← c.register.get vx
    some { c with register := { c.register with delay := a } }

/-! ## Nibble and byte field arithmetic -/

theorem and_fifteen (op : Nat) : op &&& 15 = op % 16 := by
  have h := Nat.and_pow_two_sub_one_eq_mod op 4
  norm_num at h
  exact h

theorem and_255 (v : Nat) : v &&& 255 = v % 256 := by
  have h := Nat.and_pow_two_sub_one_eq_mod v 8
  norm_num at h
  exact h

theorem shiftRight_and_fifteen (op k m : Nat) (hm : 2 ^ k = m) :
    (op >>> k) &&& 15 = op / m % 16 := by
  subst hm
  rw [and_fifteen, Nat.shiftRight_eq_div_pow]

theorem ldbyte_field (op b : Nat) (hb : op % 16 = b) :
    ((op / 16 % 16) <<< 4 + b) &&& 255 = op % 256 := by
  rw [Nat.shiftLeft_eq, and_255]
  have h16 : (2 : Nat) ^ 4 = 16 := by norm_num
  rw [h16]
  omega

/-! ## Spec-side decode tables

These two definitions follow the words of the spec (section 4.1): the
nibble fields are x = bits 8 to 11, y = bits 4 to 7, kk = low byte,
written as quotient/remainder arithmetic, restricted to the rows the code
implements (6xkk and 8xy0 to 8xy7 and 8xyE). They are compared with the
decoders embedded from the source. -/

/-- Decode table in the words of the spec, for the library decoder: the
rows 6xkk and 8xy0 to 8xy7 and 8xyE; outside those rows the result is
none (the library parse panics there). -/
def specDecodeLib (op : Nat) : Option Instruction :=
  if op / 4096 % 16 = 6 then some (.LdByte (op / 256 % 16) (op % 256))
  else if op / 4096 % 16 = 8 then
    if op % 16 = 0 then some (.Ld (op / 256 % 16) (op / 16 % 16))
    else if op % 16 = 1 then some (.Or (op / 256 % 16) (op / 16 % 16))
    else if op % 16 = 2 then some (.And (op / 256 % 16) (op / 16 % 16))
    else if op % 16 = 3 then some (.Xor (op / 256 % 16) (op / 16 % 16))
    else if op % 16 = 4 then some (.Add (op / 256 % 16) (op / 16 % 16))
    else if op % 16 = 5 then some (.Sub (op / 256 % 16) (op / 16 % 16))
    else if op % 16 = 6 then some (.Shr (op / 256 % 16))
    else if op % 16 = 7 then some (.Subn (op / 256 % 16) (op / 16 % 16))
    else if op % 16 = 14 then some (.Shl (op / 256 % 16))
    else none
  else none

/-- Decode table in the words of the spec, for the main.rs decoder: the
same rows, with Unknown outside them. -/
def specDecodeMain (op : Nat) : Main.Instruction :=
  if op / 4096 % 16 = 6 then .LdByte (op / 256 % 16) (op % 256)
  else if op / 4096 % 16 = 8 then
    if op % 16 = 0 then .Ld (op / 256 % 16) (op / 16 % 16)
    else if op % 16 = 1 then .Or (op / 256 % 16) (op / 16 % 16)
    else if op % 16 = 2 then .And (op / 256 % 16) (op / 16 % 16)
    else if op % 16 = 3 then .Xor (op / 256 % 16) (op / 16 % 16)
    else if op % 16 = 4 then .Add (op / 256 % 16) (op / 16 % 16)
    else if op % 16 = 5 then .Sub (op / 256 % 16) (op / 16 % 16)
    else if op % 16 = 6 then .Shr (op / 256 % 16)
    else if op % 16 = 7 then .Subn (op / 256 % 16) (op / 16 % 16)
    else if op % 16 = 14 then .Shl (op / 256 % 16)
    else .Unknown
  else .Unknown

/-- C1 counterexample: the opcode 0x00E0 is in the decode table of spec
section 4.1 (it should decode to Cls), yet the library decoder panics on
it (modelled as none, not a returned result) and the main.rs decoder
returns Unknown rather than Cls. -/
theorem C1_counterexample :
    Instruction.parse 0x00E0 = none ∧
    Main.Instruction.parse 0x00E0 = Main.Instruction.Unknown ∧
    Instruction.parse 0x7001 = none ∧
    Main.Instruction.parse 0x7001 = Main.Instruction.Unknown := by
  refine ⟨rfl, rfl, rfl, rfl⟩

/-- C1 (amended): for every 16-bit opcode word, the library decoder
decodes exactly the rows 6xkk (to LdByte with x = bits 8 to 11 and
kk = low byte) and 8xy0 to 8xy7 and 8xyE (to Ld, Or, And, Xor, Add, Sub,
Shr, Subn, Shl with x = bits 8 to 11 and y = bits 4 to 7), and panics via
unimplemented! on every other opcode; the main.rs decoder decodes the same
rows identically and returns the explicit Unknown result on every other
opcode, never aborting. -/
theorem C1_decoder_table : ∀ op, op < 65536 →
    Instruction.parse op = specDecodeLib op ∧
    Main.Instruction.parse op = specDecodeMain op := by
  intro op _
  unfold Instruction.parse Main.Instruction.parse specDecodeLib specDecodeMain
  rw [shiftRight_and_fifteen op 12 4096 (by norm_num),
    shiftRight_and_fifteen op 8 256 (by norm_num),
    shiftRight_and_fifteen op 4 16 (by norm_num),
    and_fifteen op]
  generalize hN : op % 16 = n
  generalize hT : op / 4096 % 16 = t
  have ht : t < 16 := by omega
  have hn : n < 16 := by omega
  interval_cases t <;> interval_cases n <;>
    refine ⟨?_, ?_⟩ <;>
      first
        | rfl
        | exact congrArg (fun kk => some (Instruction.LdByte (op / 256 % 16) kk))
            (ldbyte_field op _ hN)
        | exact congrArg (fun kk => Main.Instruction.LdByte (op / 256 % 16) kk)
            (ldbyte_field op _ hN)

/-- Witness for C1_decoder_table at the concrete opcode 0x8124. -/
theorem C1_decoder_table_witness :
    (0x8124 : Nat) < 65536 ∧
    (Instruction.parse 0x8124 = specDecodeLib 0x8124 ∧
      Main.Instruction.parse 0x8124 = specDecodeMain 0x8124) := by
  exact ⟨by norm_num, C1_decoder_table 0x8124 (by norm_num)⟩

/-! ## Register access characterization -/

theorem lt16_15 : (15 : Nat) < 16 := by norm_num

theorem lt16_0 : (0 : Nat) < 16 := by norm_num

/-- Pure register write at an in-range index: the value Register.set
returns inside some. -/
def Register.upd (r : Register) (k : Fin 16) (v : Nat) : Register :=
  { r with values := Function.update r.values k v }

theorem Register.get_eq (r : Register) (k : Nat) (h : k < 16) :
    r.get k = some (r.values ⟨k, h⟩) := by
  simp [Register.get, h]

theorem Register.set_eq (r : Register) (k v : Nat) (h : k < 16) :
    r.set k v = some (r.upd ⟨k, h⟩ v) := by
  simp [Register.set, Register.upd, h]

/-- Whether every register-index field of the instruction is in 0..15
(indices are 4-bit nibbles when the instruction comes from the decoder). -/
def Instruction.indicesOk : Instruction → Bool
  | .Sys _ => true
  | .Cls => true
  | .Ret => true
  | .Jp _ => true
  | .Call _ => true
  | .SeByte vx _ => decide (vx < 16)
  | .SneByte vx _ => decide (vx < 16)
  | .Se vx vy => decide (vx < 16) && decide (vy < 16)
  | .LdByte vx _ => decide (vx < 16)
  | .AddByte vx _ => decide (vx < 16)
  | .Ld vx vy => decide (vx < 16) && decide (vy < 16)
  | .Or vx vy => decide (vx < 16) && decide (vy < 16)
  | .And vx vy => decide (vx < 16) && decide (vy < 16)
  | .Xor vx vy => decide (vx < 16) && decide (vy < 16)
  | .Add vx vy => decide (vx < 16) && decide (vy < 16)
  | .Sub vx vy => decide (vx < 16) && decide (vy < 16)
  | .Shr vx => decide (vx < 16)
  | .Subn vx vy => decide (vx < 16) && decide (vy < 16)
  | .Shl vx => decide (vx < 16)
  | .Sne vx vy => decide (vx < 16) && decide (vy < 16)
  | .Ldi _ => true
  | .JpV0 _ => true
  | .Rnd vx _ => decide (vx < 16)
  | .LdVxDelay vx => decide (vx < 16)
  | .LdDelayVx vx => decide (vx < 16)

/-- The two instruction kinds whose execute arm is unimplemented!. -/
def Instruction.isSysOrCls : Instruction → Bool
  | .Sys _ => true
  | .Cls => true
  | _ => false

/-- C2 counterexample: executing Cls (and Sys) aborts via the
unimplemented! panic (modelled as none), rather than completing with an
observable not-implemented result as the claim states. -/
theorem C2_counterexample :
    Chip.new.execute .Cls 0 = none ∧ Chip.new.execute (.Sys 0) 0 = none :=
  ⟨rfl, rfl⟩

/-- C2 (amended): for every machine state and every Instruction whose
register-index fields are in 0..15, other than Sys and Cls, Chip::execute
completes without failing; in particular the skip instructions complete at
every ProgramCounter value. Sys and Cls abort via the unimplemented!
panic. -/
theorem C2_execute_total : ∀ (c : Chip) (ins : Instruction) (rnd : Nat),
    ins.indicesOk = true → ins.isSysOrCls = false → (c.execute ins rnd).isSome := by
  intro c ins rnd hok hsc
  cases ins <;>
    simp_all [Chip.execute, Instruction.indicesOk, Instruction.isSysOrCls,
      Register.get, Register.set] <;>
    first
      | rfl
      | (split <;> simp)

/-- Witness for C2_execute_total at a concrete state and instruction. -/
theorem C2_execute_total_witness :
    (Instruction.LdByte 0 10).indicesOk = true ∧
    (Instruction.LdByte 0 10).isSysOrCls = false ∧
    (Chip.new.execute (.LdByte 0 10) 0).isSome :=
  ⟨rfl, rfl, C2_execute_total Chip.new (.LdByte 0 10) 0 rfl rfl⟩

/-- C3 counterexample: with V15 = 200 and V0 = 100, executing Add(15, 0)
leaves V15 = 44 = (200 + 100) mod 256, not 1: the code writes VF before
Vx, so when x = 0xF the final register value is the sum, not the carry
flag the claim requires. -/
theorem C3_counterexample :
    ((Chip.with_register_values
        [100, 0, 0, 0, 0, 0, 0, 0, 0, 0, 0, 0, 0, 0, 0, 200]).execute
      (.Add 15 0) 0).map (fun s => s.register.values ⟨15, lt16_15⟩) = some 44 ∧
    (44 : Nat) ≠ 1 := by
  refine ⟨rfl, by norm_num⟩

/-- C3 (amended): for every x, y in 0..15, executing Add(x,y) computes
sum = Vx + Vy over Nat (wider than 8 bits), writes VF = 1 if sum > 255
else 0 first, and then writes Vx = sum mod 256, both using the pre-write
operand values; because the VF write happens before the Vx write, when
x = 0xF the final register value is sum mod 256, not the flag. -/
theorem C3_add : ∀ (c : Chip) (x y rnd : Nat) (hx : x < 16) (hy : y < 16),
    c.execute (.Add x y) rnd =
      some { c with register :=
        ((c.register.upd ⟨15, lt16_15⟩
            (if c.register.values ⟨x, hx⟩ + c.register.values ⟨y, hy⟩ > 255 then 1 else 0)).upd
          ⟨x, hx⟩ ((c.register.values ⟨x, hx⟩ + c.register.values ⟨y, hy⟩) % 256)) } ∧
    (x ≠ 15 →
      (c.execute (.Add x y) rnd).map (fun s => s.register.values ⟨15, lt16_15⟩) =
        some (if c.register.values ⟨x, hx⟩ + c.register.values ⟨y, hy⟩ > 255 then 1 else 0)) ∧
    (c.execute (.Add x y) rnd).map (fun s => s.register.values ⟨x, hx⟩) =
      some ((c.register.values ⟨x, hx⟩ + c.register.values ⟨y, hy⟩) % 256) := by
  intro c x y rnd hx hy
  have h1 : c.execute (.Add x y) rnd =
      some { c with register :=
        ((c.register.upd ⟨15, lt16_15⟩
            (if c.register.values ⟨x, hx⟩ + c.register.values ⟨y, hy⟩ > 255 then 1 else 0)).upd
          ⟨x, hx⟩ ((c.register.values ⟨x, hx⟩ + c.register.values ⟨y, hy⟩) % 256)) } := by
    simp [Chip.execute, Register.get_eq _ _ hx, Register.get_eq _ _ hy,
      Register.set_eq _ _ _ lt16_15, Register.set_eq _ _ _ hx]
  refine ⟨h1, ?_, ?_⟩
  · intro hne
    rw [h1]
    simp [Register.upd, Function.update_apply, Fin.ext_iff]
    intro h15
    omega
  · rw [h1]
    simp [Register.upd, Function.update_apply]

/-- Witness for C3_add at x = 0, y = 1, V0 = 100, V1 = 27. -/
theorem C3_add_witness :
    ((Chip.with_register_values [100, 27]).execute (.Add 0 1) 0).map
      (fun s => s.register.values ⟨0, lt16_0⟩) = some 127 := by
  have h := (C3_add (Chip.with_register_values [100, 27]) 0 1 0
    (by norm_num) (by norm_num)).2.2
  simpa using h

/-- C4: Sub(x,y) writes VF = 1 if the pre-instruction Vx > Vy else 0, then
writes Vx = (Vx - Vy) mod 256 computed in signed width and masked, which
for byte-valued operands is Vx - Vy when Vy <= Vx and 256 + Vx - Vy when
the difference is negative; Subn(x,y) is the mirror with the operands
swapped. Both use the pre-instruction operand values. -/
theorem C4_sub_subn : ∀ (c : Chip) (x y rnd : Nat) (hx : x < 16) (hy : y < 16),
    (c.execute (.Sub x y) rnd =
      some { c with register :=
        ((c.register.upd ⟨15, lt16_15⟩
            (if c.register.values ⟨x, hx⟩ > c.register.values ⟨y, hy⟩ then 1 else 0)).upd
          ⟨x, hx⟩
          (((c.register.values ⟨x, hx⟩ : Int) - (c.register.values ⟨y, hy⟩ : Int)) % 256).toNat) }) ∧
    (c.execute (.Subn x y) rnd =
      some { c with register :=
        ((c.register.upd ⟨15, lt16_15⟩
            (if c.register.values ⟨y, hy⟩ > c.register.values ⟨x, hx⟩ then 1 else 0)).upd
          ⟨x, hx⟩
          (((c.register.values ⟨y, hy⟩ : Int) - (c.register.values ⟨x, hx⟩ : Int)) % 256).toNat) }) ∧
    (∀ a b : Nat, a < 256 → b < 256 →
      (b ≤ a → (((a : Int) - (b : Int)) % 256).toNat = a - b) ∧
      (a < b → (((a : Int) - (b : Int)) % 256).toNat = 256 + a - b)) := by
  intro c x y rnd hx hy
  refine ⟨?_, ?_, ?_⟩
  · simp [Chip.execute, Register.get_eq _ _ hx, Register.get_eq _ _ hy,
      Register.set_eq _ _ _ lt16_15, Register.set_eq _ _ _ hx]
  · simp [Chip.execute, Register.get_eq _ _ hx, Register.get_eq _ _ hy,
      Register.set_eq _ _ _ lt16_15, Register.set_eq _ _ _ hx]
  · intro a b ha hb
    constructor
    · intro hba
      omega
    · intro hab
      omega

/-- Witness for C4_sub_subn at x = 0, y = 1, V0 = 25, V1 = 100 (the
wrapping case of the spec: 25 - 100 wraps to 181). -/
theorem C4_sub_subn_witness :
    ((Chip.with_register_values [25, 100]).execute (.Sub 0 1) 0) =
      some { Chip.with_register_values [25, 100] with register :=
        (((Chip.with_register_values [25, 100]).register.upd ⟨15, lt16_15⟩ 0).upd ⟨0, lt16_0⟩
          181) } := by
  have h := (C4_sub_subn (Chip.with_register_values [25, 100]) 0 1 0
    (by norm_num) (by norm_num)).1
  simpa using h

/-- C5: Ret on a non-empty stack removes the top entry and sets
ProgramCounter to that entry masked to 12 bits; Ret on an empty stack is
inert: the state is returned unchanged in every component. -/
theorem C5_ret : ∀ (c : Chip) (rnd : Nat),
    (c.stack = [] → c.execute .Ret rnd = some c) ∧
    (∀ a rest, c.stack = a :: rest →
      c.execute .Ret rnd = some { c with program_counter := a % 4096, stack := rest }) := by
  intro c rnd
  constructor
  · intro h
    simp [Chip.execute, h]
  · intro a rest h
    simp [Chip.execute, h]

/-- Witness for C5_ret on an empty-stack state and on a one-entry stack. -/
theorem C5_ret_witness :
    Chip.new.execute .Ret 0 = some Chip.new ∧
    { Chip.new with stack := [0x1234] }.execute .Ret 0 =
      some { Chip.new with program_counter := 0x1234 % 4096, stack := [] } := by
  refine ⟨(C5_ret Chip.new 0).1 rfl, ?_⟩
  have h := (C5_ret { Chip.new with stack := [0x1234] } 0).2 0x1234 [] rfl
  simpa using h

theorem Chip.execute_shr (c : Chip) (x rnd : Nat) (hx : x < 16) :
    c.execute (.Shr x) rnd =
      some { c with register :=
        ((c.register.upd ⟨15, lt16_15⟩ (c.register.values ⟨x, hx⟩ &&& 1)).upd ⟨x, hx⟩
          (c.register.values ⟨x, hx⟩ >>> 1)) } := by
  simp [Chip.execute, Register.get_eq _ _ hx,
    Register.set_eq _ _ _ lt16_15, Register.set_eq _ _ _ hx]

theorem Chip.execute_shl (c : Chip) (x rnd : Nat) (hx : x < 16) :
    c.execute (.Shl x) rnd =
      some { c with register :=
        ((c.register.upd ⟨15, lt16_15⟩ ((c.register.values ⟨x, hx⟩ &&& 128) >>> 7)).upd ⟨x, hx⟩
          ((c.register.values ⟨x, hx⟩ <<< 1) % 256)) } := by
  simp [Chip.execute, Register.get_eq _ _ hx,
    Register.set_eq _ _ _ lt16_15, Register.set_eq _ _ _ hx]

theorem upd_values_same (r : Register) (k : Fin 16) (v : Nat) :
    (r.upd k v).values k = v := by
  simp [Register.upd]

theorem upd_values_ne (r : Register) (j k : Fin 16) (h : j ≠ k) (v : Nat) :
    (r.upd k v).values j = r.values j := by
  simp [Register.upd, Function.update_apply, h]

/-- C6: for x in 0x0..0xE, the shift pair is lossy at the boundary:
from Vx = 5, Shr yields Vx = 2 and VF = 1, and a following Shl yields
Vx = 4 and VF = 0 (the original bit 0 is lost, not restored); from
Vx = 150, Shl yields Vx = 44 and VF = 1, and a following Shr yields
Vx = 22 and VF = 0. -/
theorem C6_shift_lossy : ∀ (c : Chip) (x r1 r2 : Nat) (hx : x < 16), x ≠ 15 →
    (c.register.values ⟨x, hx⟩ = 5 →
      (c.execute (.Shr x) r1).map (fun s => s.register.values ⟨x, hx⟩) = some 2 ∧
      (c.execute (.Shr x) r1).map (fun s => s.register.values ⟨15, lt16_15⟩) = some 1 ∧
      ((c.execute (.Shr x) r1).bind (fun s => s.execute (.Shl x) r2)).map
        (fun s => s.register.values ⟨x, hx⟩) = some 4 ∧
      ((c.execute (.Shr x) r1).bind (fun s => s.execute (.Shl x) r2)).map
        (fun s => s.register.values ⟨15, lt16_15⟩) = some 0) ∧
    (c.register.values ⟨x, hx⟩ = 150 →
      (c.execute (.Shl x) r1).map (fun s => s.register.values ⟨x, hx⟩) = some 44 ∧
      (c.execute (.Shl x) r1).map (fun s => s.register.values ⟨15, lt16_15⟩) = some 1 ∧
      ((c.execute (.Shl x) r1).bind (fun s => s.execute (.Shr x) r2)).map
        (fun s => s.register.values ⟨x, hx⟩) = some 22 ∧
      ((c.execute (.Shl x) r1).bind (fun s => s.execute (.Shr x) r2)).map
        (fun s => s.register.values ⟨15, lt16_15⟩) = some 0) := by
  intro c x r1 r2 hx hne
  have hfin : (15 : Fin 16) ≠ ⟨x, hx⟩ := by
    simp [Fin.ext_iff]
    omega
  constructor
  · intro hv
    rw [c.execute_shr x r1 hx]
    refine ⟨?_, ?_, ?_, ?_⟩ <;>
      simp [Chip.execute_shl, hx, upd_values_same, upd_values_ne, hfin, hv] <;> decide
  · intro hv
    rw [c.execute_shl x r1 hx]
    refine ⟨?_, ?_, ?_, ?_⟩ <;>
      simp [Chip.execute_shr, hx, upd_values_same, upd_values_ne, hfin, hv] <;> decide

/-- Witness for C6_shift_lossy at x = 0 on the state V0 = 5. -/
theorem C6_shift_lossy_witness :
    ((Chip.with_register_values [5]).execute (.Shr 0) 0).map
      (fun s => s.register.values ⟨0, lt16_0⟩) = some 2 ∧
    (((Chip.with_register_values [5]).execute (.Shr 0) 0).bind
      (fun s => s.execute (.Shl 0) 0)).map
      (fun s => s.register.values ⟨0, lt16_0⟩) = some 4 := by
  have h := (C6_shift_lossy (Chip.with_register_values [5]) 0 0 0 lt16_0
    (by norm_num)).1 rfl
  exact ⟨h.1, h.2.2.1⟩

/-- C7: AddByte(x,kk) sets Vx to (Vx + kk) mod 256 and writes no other
register: when x is not 0xF the flag register VF is unchanged, and from
Vx = 250 with kk = 10 the result is Vx = 4. -/
theorem C7_addbyte : ∀ (c : Chip) (x kk rnd : Nat) (hx : x < 16), kk < 256 →
    c.execute (.AddByte x kk) rnd =
      some { c with register :=
        (c.register.upd ⟨x, hx⟩ ((c.register.values ⟨x, hx⟩ + kk) % 256)) } ∧
    (x ≠ 15 →
      (c.execute (.AddByte x kk) rnd).map (fun s => s.register.values ⟨15, lt16_15⟩) =
        some (c.register.values ⟨15, lt16_15⟩)) ∧
    (c.register.values ⟨x, hx⟩ = 250 → kk = 10 →
      (c.execute (.AddByte x kk) rnd).map (fun s => s.register.values ⟨x, hx⟩) = some 4) := by
  intro c x kk rnd hx hkk
  have h1 : c.execute (.AddByte x kk) rnd =
      some { c with register :=
        (c.register.upd ⟨x, hx⟩ ((c.register.values ⟨x, hx⟩ + kk) % 256)) } := by
    simp [Chip.execute, Register.get_eq _ _ hx, Register.set_eq _ _ _ hx]
  refine ⟨h1, ?_, ?_⟩
  · intro hne
    have hfin : (15 : Fin 16) ≠ ⟨x, hx⟩ := by
      simp [Fin.ext_iff]
      omega
    rw [h1]
    simp [upd_values_ne, hfin]
  · intro hv hk
    rw [h1]
    simp [upd_values_same, hv, hk]

/-- Witness for C7_addbyte at x = 0, kk = 10, V0 = 250: the wraparound
instance of the claim. -/
theorem C7_addbyte_witness :
    ((Chip.with_register_values [250]).execute (.AddByte 0 10) 0).map
      (fun s => s.register.values ⟨0, lt16_0⟩) = some 4 ∧
    ((Chip.with_register_values [250]).execute (.AddByte 0 10) 0).map
      (fun s => s.register.values ⟨15, lt16_15⟩) = some 0 := by
  have h := C7_addbyte (Chip.with_register_values [250]) 0 10 0 lt16_0 (by norm_num)
  exact ⟨h.2.2 rfl rfl, h.2.1 (by norm_num)⟩

/-- C8: Or, And, Xor write Vx = Vx OP Vy and nothing else: for x in
0x0..0xE the flag register VF is left unmodified, and memory, the
ProgramCounter, the stack, the index register and both timers are
untouched (the record equations change only the register file at x). -/
theorem C8_bitwise : ∀ (c : Chip) (x y rnd : Nat) (hx : x < 16) (hy : y < 16), x ≠ 15 →
    (c.execute (.Or x y) rnd =
      some { c with register :=
        (c.register.upd ⟨x, hx⟩ (c.register.values ⟨x, hx⟩ ||| c.register.values ⟨y, hy⟩)) }) ∧
    (c.execute (.And x y) rnd =
      some { c with register :=
        (c.register.upd ⟨x, hx⟩ (c.register.values ⟨x, hx⟩ &&& c.register.values ⟨y, hy⟩)) }) ∧
    (c.execute (.Xor x y) rnd =
      some { c with register :=
        (c.register.upd ⟨x, hx⟩ (c.register.values ⟨x, hx⟩ ^^^ c.register.values ⟨y, hy⟩)) }) ∧
    ((c.execute (.Or x y) rnd).map (fun s => s.register.values ⟨15, lt16_15⟩) =
      some (c.register.values ⟨15, lt16_15⟩)) ∧
    ((c.execute (.And x y) rnd).map (fun s => s.register.values ⟨15, lt16_15⟩) =
      some (c.register.values ⟨15, lt16_15⟩)) ∧
    ((c.execute (.Xor x y) rnd).map (fun s => s.register.values ⟨15, lt16_15⟩) =
      some (c.register.values ⟨15, lt16_15⟩)) := by
  intro c x y rnd hx hy hne
  have hfin : (15 : Fin 16) ≠ ⟨x, hx⟩ := by
    simp [Fin.ext_iff]
    omega
  have hor : c.execute (.Or x y) rnd =
      some { c with register :=
        (c.register.upd ⟨x, hx⟩ (c.register.values ⟨x, hx⟩ ||| c.register.values ⟨y, hy⟩)) } := by
    simp [Chip.execute, Register.get_eq _ _ hx, Register.get_eq _ _ hy, Register.set_eq _ _ _ hx]
  have hand : c.execute (.And x y) rnd =
      some { c with register :=
        (c.register.upd ⟨x, hx⟩ (c.register.values ⟨x, hx⟩ &&& c.register.values ⟨y, hy⟩)) } := by
    simp [Chip.execute, Register.get_eq _ _ hx, Register.get_eq _ _ hy, Register.set_eq _ _ _ hx]
  have hxor : c.execute (.Xor x y) rnd =
      some { c with register :=
        (c.register.upd ⟨x, hx⟩ (c.register.values ⟨x, hx⟩ ^^^ c.register.values ⟨y, hy⟩)) } := by
    simp [Chip.execute, Register.get_eq _ _ hx, Register.get_eq _ _ hy, Register.set_eq _ _ _ hx]
  refine ⟨hor, hand, hxor, ?_, ?_, ?_⟩
  · rw [hor]
    simp [upd_values_ne, hfin]
  · rw [hand]
    simp [upd_values_ne, hfin]
  · rw [hxor]
    simp [upd_values_ne, hfin]

/-- Witness for C8_bitwise at x = 1, y = 0, V0 = 10, V1 = 15. -/
theorem C8_bitwise_witness :
    ((Chip.with_register_values [10, 15]).execute (.And 1 0) 0).map
      (fun s => s.register.values ⟨1, by norm_num⟩) = some 10 ∧
    ((Chip.with_register_values [10, 15]).execute (.And 1 0) 0).map
      (fun s => s.register.values ⟨15, lt16_15⟩) = some 0 := by
  have h := C8_bitwise (Chip.with_register_values [10, 15]) 1 0 0
    (by norm_num) (by norm_num) (by norm_num)
  constructor
  · rw [h.2.1]
    simp [upd_values_same, Chip.with_register_values, Register.with_values, Chip.new]
    decide
  · have hv := h.2.2.2.2.1
    simpa using hv

/-- C9: each of SeByte, SneByte, Se, Sne advances the 16-bit
ProgramCounter by exactly 2 (wrapping at the 16-bit width) when its
comparison holds, changing nothing else, and returns the state unchanged
when the comparison fails; the final conjunct records that below the wrap
boundary the advance is literally ProgramCounter + 2. -/
theorem C9_skips : ∀ (c : Chip) (x y kk rnd : Nat) (hx : x < 16) (hy : y < 16), kk < 256 →
    ((c.register.values ⟨x, hx⟩ = kk →
        c.execute (.SeByte x kk) rnd =
          some { c with program_counter := (c.program_counter + 2) % 65536 }) ∧
      (c.register.values ⟨x, hx⟩ ≠ kk → c.execute (.SeByte x kk) rnd = some c)) ∧
    ((c.register.values ⟨x, hx⟩ ≠ kk →
        c.execute (.SneByte x kk) rnd =
          some { c with program_counter := (c.program_counter + 2) % 65536 }) ∧
      (c.register.values ⟨x, hx⟩ = kk → c.execute (.SneByte x kk) rnd = some c)) ∧
    ((c.register.values ⟨x, hx⟩ = c.register.values ⟨y, hy⟩ →
        c.execute (.Se x y) rnd =
          some { c with program_counter := (c.program_counter + 2) % 65536 }) ∧
      (c.register.values ⟨x, hx⟩ ≠ c.register.values ⟨y, hy⟩ →
        c.execute (.Se x y) rnd = some c)) ∧
    ((c.register.values ⟨x, hx⟩ ≠ c.register.values ⟨y, hy⟩ →
        c.execute (.Sne x y) rnd =
          some { c with program_counter := (c.program_counter + 2) % 65536 }) ∧
      (c.register.values ⟨x, hx⟩ = c.register.values ⟨y, hy⟩ →
        c.execute (.Sne x y) rnd = some c)) ∧
    (c.program_counter + 2 < 65536 →
      (c.program_counter + 2) % 65536 = c.program_counter + 2) := by
  intro c x y kk rnd hx hy hkk
  refine ⟨⟨?_, ?_⟩, ⟨?_, ?_⟩, ⟨?_, ?_⟩, ⟨?_, ?_⟩, ?_⟩ <;>
    intro h <;>
    simp [Chip.execute, Register.get_eq _ _ hx, Register.get_eq _ _ hy, h]

/-- Witness for C9_skips: SeByte skips when the byte matches, and is
inert when it does not. -/
theorem C9_skips_witness :
    (Chip.with_register_values [7]).execute (.SeByte 0 7) 0 =
      some { Chip.with_register_values [7] with program_counter := 2 } ∧
    (Chip.with_register_values [7]).execute (.SeByte 0 9) 0 =
      some (Chip.with_register_values [7]) := by
  constructor
  · have h := ((C9_skips (Chip.with_register_values [7]) 0 0 7 0
      lt16_0 lt16_0 (by norm_num)).1).1 rfl
    simpa using h
  · exact ((C9_skips (Chip.with_register_values [7]) 0 0 9 0
      lt16_0 lt16_0 (by norm_num)).1).2 (by decide)

/-- C10: Jp assigns the full 16-bit address to ProgramCounter with no
masking; JpV0 assigns V0 + addr (widened, wrapping only at the 16-bit
register width, and exactly V0 + addr whenever that sum fits in 16 bits);
Call masks the assigned address with 0xFFF, as does Ret for the popped
address. -/
theorem C10_jumps : ∀ (c : Chip) (addr rnd : Nat),
    c.execute (.Jp addr) rnd = some { c with program_counter := addr } ∧
    c.execute (.JpV0 addr) rnd =
      some { c with program_counter := (c.register.values ⟨0, lt16_0⟩ + addr) % 65536 } ∧
    (c.register.values ⟨0, lt16_0⟩ + addr < 65536 →
      (c.execute (.JpV0 addr) rnd).map Chip.program_counter =
        some (c.register.values ⟨0, lt16_0⟩ + addr)) ∧
    c.execute (.Call addr) rnd =
      some { c with stack := c.program_counter :: c.stack,
                    program_counter := addr % 4096 } ∧
    (∀ a rest, c.stack = a :: rest →
      c.execute .Ret rnd = some { c with program_counter := a % 4096, stack := rest }) := by
  intro c addr rnd
  have hjp : c.execute (.JpV0 addr) rnd =
      some { c with program_counter := (c.register.values ⟨0, lt16_0⟩ + addr) % 65536 } := by
    simp [Chip.execute, Register.get_eq _ _ lt16_0]
  refine ⟨?_, hjp, ?_, ?_, ?_⟩
  · simp [Chip.execute]
  · intro hlt
    rw [hjp]
    exact congrArg some (Nat.mod_eq_of_lt hlt)
  · simp [Chip.execute]
  · intro a rest h
    simp [Chip.execute, h]

/-- Witness for C10_jumps: a jump target above 0xFFF reaches the
ProgramCounter unmasked, and JpV0 adds V0 without masking. -/
theorem C10_jumps_witness :
    Chip.new.execute (.Jp 8192) 0 = some { Chip.new with program_counter := 8192 } ∧
    (4095 : Nat) < 8192 ∧
    ((Chip.with_register_values [100]).execute (.JpV0 4000) 0).map Chip.program_counter =
      some 4100 := by
  refine ⟨(C10_jumps Chip.new 8192 0).1, by norm_num, ?_⟩
  have h := (C10_jumps (Chip.with_register_values [100]) 4000 0).2.2.1 (by decide)
  simpa using h
